import Mathlib

/-!
Verification of the OPA policy generator's response-normalization and
synthetic-streaming layer (`infrastructure/lambda/agent-core-simple.js` and
`infrastructure/lambda/index.js`), as a shallow embedding in Lean.

JavaScript values produced by `JSON.parse` are modelled by the inductive
`Json`; the JS built-in `JSON.parse` is modelled by a fuel-bounded
recursive-descent parser `jsonParse` over the JSON grammar (returning
`Option Json`; an exception is `none`).  Numbers are modelled to integer
precision: the parser consumes a fraction / exponent suffix but keeps only
the integer part, which is enough for every behaviour the handlers inspect.
The regular-expression searches of the source are modelled by explicit
scanning functions over `List Char`, each documented with the regex it
embeds.  Impure record fields (`timestamp`, `metadata`) are omitted from
the embedded `PolicyRecord`; no control flow depends on them.
-/

/-- Model of a JavaScript value obtained from `JSON.parse`. -/
inductive Json where
  | null : Json
  | bool (b : Bool) : Json
  | num (n : Int) : Json
  | str (s : String) : Json
  | arr (elems : List Json) : Json
  | obj (fields : List (String × Json)) : Json
deriving Repr

/-- JavaScript truthiness of a `Json` value (`null`, `false`, `0` and the
empty string are falsy; arrays and objects are always truthy). -/
def Json.truthy : Json → Bool
  | .null => false
  | .bool b => b
  | .num n => n != 0
  | .str s => s ≠ ""
  | .arr _ => true
  | .obj _ => true

/-- Property access `v.k` on a parsed JSON value: defined (`some`) only on
objects whose field list contains `k`; everything else yields `undefined`
(`none`).  Access on `null` is handled separately by the callers, since in
JavaScript it throws. -/
def Json.getField : Json → String → Option Json
  | .obj fields, k => fields.lookup k
  | _, _ => none

/-- The JavaScript idiom `x || d` for a possibly-undefined `x`:
the default is taken when `x` is `undefined` or falsy. -/
def jsOrOpt (x : Option Json) (d : Json) : Json :=
  match x with
  | some v => if v.truthy then v else d
  | none => d

/-- The JavaScript idiom `x || d` for a present value `x`. -/
def jsOrVal (x d : Json) : Json :=
  if x.truthy then x else d

/-- Whitespace as matched by the JavaScript regex class `\s` and by
`String.prototype.trim` (restricted to the ASCII range; the handlers never
manipulate exotic Unicode whitespace). -/
def isJsWs (c : Char) : Bool :=
  c = ' ' ∨ c = '\t' ∨ c = '\n' ∨ c = '\x0d' ∨ c = '\x0b' ∨ c = '\x0c'

/-- Model of `String.prototype.trim` on a character list. -/
def jsTrimList (l : List Char) : List Char :=
  ((l.dropWhile isJsWs).reverse.dropWhile isJsWs).reverse

/-- Model of `String.prototype.trim`. -/
def jsTrim (s : String) : String :=
  ⟨jsTrimList s.toList⟩

/-- Global left-to-right non-overlapping replacement of the pattern `pat`
by `rep`, the semantics of `s.replace(/pat/g, rep)` for a fixed-string
pattern.  Structured with explicit fuel so that it reduces by `rfl`;
`fuel = l.length + 1` always suffices because each step consumes at least
one character of `l`. -/
def replaceFuel (pat rep : List Char) : Nat → List Char → List Char
  | 0, l => l
  | _ + 1, [] => []
  | fuel + 1, c :: rest =>
    if pat ≠ [] ∧ pat.isPrefixOf (c :: rest) then
      rep ++ replaceFuel pat rep fuel (List.drop (pat.length - 1) rest)
    else
      c :: replaceFuel pat rep fuel rest

/-- Model of `s.replace(/pat/g, rep)` for a fixed-string pattern. -/
def jsReplaceAll (s pat rep : String) : String :=
  ⟨replaceFuel pat.toList rep.toList (s.toList.length + 1) s.toList⟩

/-- Index of the first occurrence of the character `c`. -/
def firstIdxOf (c : Char) : List Char → Option Nat
  | [] => none
  | x :: xs => if x = c then some 0 else (firstIdxOf c xs).map (· + 1)

/-- Index of the last occurrence of the character `c`. -/
def lastIdxOf (c : Char) (l : List Char) : Option Nat :=
  (firstIdxOf c l.reverse).map (fun k => l.length - 1 - k)

/-- Does `pat` occur, case-insensitively, as a prefix of `l`?  Models the
anchored step of scanning for a case-insensitive literal regex. -/
def lcPrefixAt (pat : List Char) (l : List Char) : Bool :=
  pat.isPrefixOf (l.map Char.toLower)

/-- Does `pat` occur (case-sensitively) as a substring? -/
def containsSub (pat : List Char) : List Char → Bool
  | [] => pat = []
  | c :: rest => pat.isPrefixOf (c :: rest) || containsSub pat rest

/-! JSON parser: a fuel-bounded recursive-descent parser over the JSON
grammar, modelling the JS built-in `JSON.parse` (result `none` models a
thrown `SyntaxError`).  Insertion into objects replaces an existing key,
matching the last-key-wins behaviour of `JSON.parse`. -/

/-- Whitespace accepted between JSON tokens (per the JSON grammar). -/
def isJsonWs (c : Char) : Bool :=
  c = ' ' ∨ c = '\t' ∨ c = '\n' ∨ c = '\x0d'

/-- Drop JSON inter-token whitespace. -/
def skipWs (l : List Char) : List Char :=
  l.dropWhile isJsonWs

/-- Value of a hexadecimal digit. -/
def hexVal (c : Char) : Option Nat :=
  if '0' ≤ c ∧ c ≤ '9' then some (c.toNat - '0'.toNat)
  else if 'a' ≤ c ∧ c ≤ 'f' then some (c.toNat - 'a'.toNat + 10)
  else if 'A' ≤ c ∧ c ≤ 'F' then some (c.toNat - 'A'.toNat + 10)
  else none

/-- Parse the body of a JSON string literal (after the opening quote),
returning the decoded characters and the remaining input after the closing
quote.  Fuel-bounded; `fuel = input length + 1` suffices. -/
def parseStringBody : Nat → List Char → Option (List Char × List Char)
  | 0, _ => none
  | _ + 1, [] => none
  | fuel + 1, c :: rest =>
    if c = '"' then
      some ([], rest)
    else if c = '\\' then
      match rest with
      | [] => none
      | e :: rest2 =>
        let decoded : Option (Char × List Char) :=
          if e = '"' then some ('"', rest2)
          else if e = '\\' then some ('\\', rest2)
          else if e = '/' then some ('/', rest2)
          else if e = 'b' then some ('\x08', rest2)
          else if e = 'f' then some ('\x0c', rest2)
          else if e = 'n' then some ('\n', rest2)
          else if e = 'r' then some ('\x0d', rest2)
          else if e = 't' then some ('\t', rest2)
          else if e = 'u' then
            match rest2 with
            | h1 :: h2 :: h3 :: h4 :: rest3 =>
              match hexVal h1, hexVal h2, hexVal h3, hexVal h4 with
              | some v1, some v2, some v3, some v4 =>
                some (Char.ofNat (((v1 * 16 + v2) * 16 + v3) * 16 + v4), rest3)
              | _, _, _, _ => none
            | _ => none
          else none
        match decoded with
        | some (ch, rest3) =>
          match parseStringBody fuel rest3 with
          | some (chars, rem) => some (ch :: chars, rem)
          | none => none
        | none => none
    else if c.toNat < 32 then
      none
    else
      match parseStringBody fuel rest with
      | some (chars, rem) => some (c :: chars, rem)
      | none => none

/-- Parse an unsigned decimal digit run, returning its value and the rest. -/
def parseDigits : Nat → Int → List Char → (Int × List Char)
  | 0, acc, l => (acc, l)
  | fuel + 1, acc, l =>
    match l with
    | c :: rest =>
      if '0' ≤ c ∧ c ≤ '9' then
        parseDigits fuel (acc * 10 + Int.ofNat (c.toNat - '0'.toNat)) rest
      else (acc, l)
    | [] => (acc, [])

/-- Is `c` a decimal digit? -/
def isDigitCh (c : Char) : Bool :=
  '0' ≤ c ∧ c ≤ '9'

/-- Parse a JSON number after an optional leading minus has been noted.
Enforces the JSON grammar (no leading zeros, digits required after `.` and
the exponent marker); the fraction and exponent are consumed but only the
integer part is retained (see the header note). -/
def parseNumberTail (neg : Bool) (l : List Char) : Option (Int × List Char) :=
  match l with
  | [] => none
  | c :: rest =>
    if c = '0' then
      -- a leading zero must not be followed by another digit
      let intPart : Int := 0
      let afterInt := rest
      if afterInt.head?.any isDigitCh then none
      else
        let step1 : Option (List Char) :=
          match afterInt with
          | '.' :: r1 =>
            if r1.head?.any isDigitCh then some ((parseDigits (r1.length + 1) 0 r1).2) else none
          | _ => some afterInt
        match step1 with
        | none => none
        | some afterFrac =>
          match afterFrac with
          | e :: r2 =>
            if e = 'e' ∨ e = 'E' then
              let r3 := match r2 with
                | s :: r3' => if s = '+' ∨ s = '-' then r3' else r2
                | [] => r2
              if r3.head?.any isDigitCh then
                some (if neg then -intPart else intPart, (parseDigits (r3.length + 1) 0 r3).2)
              else none
            else some (if neg then -intPart else intPart, afterFrac)
          | [] => some (if neg then -intPart else intPart, afterFrac)
    else if isDigitCh c then
      let (v, afterInt) := parseDigits (l.length + 1) 0 l
      let step1 : Option (List Char) :=
        match afterInt with
        | '.' :: r1 =>
          if r1.head?.any isDigitCh then some ((parseDigits (r1.length + 1) 0 r1).2) else none
        | _ => some afterInt
      match step1 with
      | none => none
      | some afterFrac =>
        match afterFrac with
        | e :: r2 =>
          if e = 'e' ∨ e = 'E' then
            let r3 := match r2 with
              | s :: r3' => if s = '+' ∨ s = '-' then r3' else r2
              | [] => r2
            if r3.head?.any isDigitCh then
              some (if neg then -v else v, (parseDigits (r3.length + 1) 0 r3).2)
            else none
          else some (if neg then -v else v, afterFrac)
        | [] => some (if neg then -v else v, afterFrac)
    else none

/-- Replace-or-append insertion of an object field, the last-key-wins
behaviour of `JSON.parse` on duplicate keys. -/
def insertField (k : String) (v : Json) : List (String × Json) → List (String × Json)
  | [] => [(k, v)]
  | (k', v') :: rest =>
    if k' = k then (k, v) :: rest else (k', v') :: insertField k v rest

mutual

/-- Parse one JSON value from the front of the input. -/
def parseValue : Nat → List Char → Option (Json × List Char)
  | 0, _ => none
  | fuel + 1, l =>
    match skipWs l with
    | [] => none
    | c :: rest =>
      if c = 'n' then
        if ['u', 'l', 'l'].isPrefixOf rest then some (.null, rest.drop 3) else none
      else if c = 't' then
        if ['r', 'u', 'e'].isPrefixOf rest then some (.bool true, rest.drop 3) else none
      else if c = 'f' then
        if ['a', 'l', 's', 'e'].isPrefixOf rest then some (.bool false, rest.drop 4) else none
      else if c = '"' then
        match parseStringBody (rest.length + 1) rest with
        | some (chars, rem) => some (.str ⟨chars⟩, rem)
        | none => none
      else if c = '-' then
        match parseNumberTail true rest with
        | some (v, rem) => some (.num v, rem)
        | none => none
      else if isDigitCh c then
        match parseNumberTail false (c :: rest) with
        | some (v, rem) => some (.num v, rem)
        | none => none
      else if c = '[' then
        match skipWs rest with
        | ']' :: rem => some (.arr [], rem)
        | _ => parseElems fuel rest []
      else if c = '{' then
        match skipWs rest with
        | '}' :: rem => some (.obj [], rem)
        | _ => parseMembers fuel rest []
      else none

/-- Parse the comma-separated elements of a non-empty JSON array (input
starts after `[` or after a comma). -/
def parseElems : Nat → List Char → List Json → Option (Json × List Char)
  | 0, _, _ => none
  | fuel + 1, l, acc =>
    match parseValue fuel l with
    | none => none
    | some (v, rem) =>
      match skipWs rem with
      | ',' :: rem2 => parseElems fuel rem2 (acc ++ [v])
      | ']' :: rem2 => some (.arr (acc ++ [v]), rem2)
      | _ => none

/-- Parse the comma-separated members of a non-empty JSON object (input
starts after `{` or after a comma). -/
def parseMembers : Nat → List Char → List (String × Json) → Option (Json × List Char)
  | 0, _, _ => none
  | fuel + 1, l, acc =>
    match skipWs l with
    | '"' :: rest =>
      match parseStringBody (rest.length + 1) rest with
      | none => none
      | some (kchars, rem) =>
        match skipWs rem with
        | ':' :: rem2 =>
          match parseValue fuel rem2 with
          | none => none
          | some (v, rem3) =>
            match skipWs rem3 with
            | ',' :: rem4 => parseMembers fuel rem4 (insertField ⟨kchars⟩ v acc)
            | '}' :: rem4 => some (.obj (insertField ⟨kchars⟩ v acc), rem4)
            | _ => none
        | _ => none
    | _ => none

end

/-- Model of `JSON.parse`: parse one value and require only trailing
whitespace after it.  The fuel `4 * (length + 4)` is generous: every unit
of recursion either consumes input or alternates between the three mutual
parsers, each of which consumes input before recursing at equal fuel. -/
def jsonParse (s : String) : Option Json :=
  match parseValue (4 * (s.toList.length + 4)) s.toList with
  | some (v, rem) => if skipWs rem = [] then some v else none
  | none => none

/-! Regex models.  Each JavaScript regex used by the source is embedded as
an explicit scanning function with the same leftmost-match, greedy/lazy and
backtracking behaviour, documented per function. -/

/-- The ASCII apostrophe, written via its code point to keep character
literals simple. -/
def singleQuoteChar : Char := Char.ofNat 39

/-- Model of the greedy fallback regex `/\x7b[\s\S]*\x7d/` applied by
`parseGenerationResponse`'s catch block (`response.match(...)`): the match,
when it exists, runs from the first opening brace to the last closing
brace of the text (leftmost start, greedy extension). -/
def braceMatch (s : String) : Option String :=
  match firstIdxOf '\x7b' s.toList, lastIdxOf '\x7d' s.toList with
  | some i, some j =>
    if i < j then some ⟨(s.toList.drop i).take (j - i + 1)⟩ else none
  | _, _ => none

/-- The three-backtick fence delimiter. -/
def backtickFence : List Char := "```".toList

/-- Lazy scan for the closing fence of `/([\s\S]*?)\n?```/`: the capture
ends at the earliest position where (greedily) an optional newline followed
by a fence, or a fence directly, begins.  `acc` holds the reversed capture
so far. -/
def closeScan (acc : List Char) : List Char → Option (List Char)
  | [] => none
  | c :: rest =>
    if c = '\n' ∧ backtickFence.isPrefixOf rest then some acc.reverse
    else if backtickFence.isPrefixOf (c :: rest) then some acc.reverse
    else closeScan (c :: acc) rest

/-- Attempt the tail of the fenced-block regex
`/```(?:rego)?\n?([\s\S]*?)\n?```/` starting just after an opening fence:
optionally consume a `rego` tag, optionally a newline, then lazily capture
up to a closing fence.  (Consuming the optional pieces greedily is safe:
whenever the greedy choice fails, the non-greedy one fails too, because a
closing fence cannot begin inside `rego` or a newline.) -/
def tryCodeBlockAt (l : List Char) : Option (List Char) :=
  let l1 := if "rego".toList.isPrefixOf l then l.drop 4 else l
  let l2 := match l1 with
    | '\n' :: r => r
    | _ => l1
  closeScan [] l2

/-- Model of `text.match(/```(?:rego)?\n?([\s\S]*?)\n?```/)` in
`extractPolicyFromText`: leftmost opening fence whose tail admits a match;
returns the capture group. -/
def codeBlockSearch : List Char → Option (List Char)
  | [] => none
  | c :: rest =>
    if backtickFence.isPrefixOf (c :: rest) then
      match tryCodeBlockAt ((c :: rest).drop 3) with
      | some cap => some cap
      | none => codeBlockSearch rest
    else codeBlockSearch rest

/-- The literal word scanned for by `/(package\s+[\s\S]*)/`. -/
def packageWord : List Char := "package".toList

/-- Model of `text.match(/(package\s+[\s\S]*)/)` in
`extractPolicyFromText`: the capture is the suffix of the text starting at
the first occurrence of `package` that is followed by at least one
whitespace character. -/
def packageSearch : List Char → Option (List Char)
  | [] => none
  | c :: rest =>
    if packageWord.isPrefixOf (c :: rest) ∧ (((c :: rest).drop 7).head?.any isJsWs) then
      some (c :: rest)
    else packageSearch rest

/-- Character class `['":\s]` of the first explanation pattern. -/
def p1ClassChar (c : Char) : Bool :=
  c = singleQuoteChar ∨ c = '"' ∨ c = ':' ∨ isJsWs c

/-- Character class `[^"\x7d\n]` capturing an explanation fragment. -/
def allowedCap (c : Char) : Bool :=
  ¬(c = '"' ∨ c = '\x7d' ∨ c = '\n')

/-- Greedy run of capturable characters. -/
def capRunFrom (l : List Char) : List Char :=
  l.takeWhile allowedCap

/-- Backtracking over the greedy class run of
`/PAT['":\s]*([^"\x7d\n]+)/`: try to start the (non-empty, greedy) capture
after `i` class characters, giving class characters back one at a time. -/
def tryCaps (lbase : List Char) : Nat → Option (List Char)
  | 0 =>
    match lbase.head? with
    | some c => if allowedCap c then some (capRunFrom lbase) else none
    | none => none
  | i + 1 =>
    match (lbase.drop (i + 1)).head? with
    | some c =>
      if allowedCap c then some (capRunFrom (lbase.drop (i + 1))) else tryCaps lbase i
    | none => tryCaps lbase i

/-- Model of a case-insensitive `text.match(/PAT CLS* ([^"\x7d\n]+)/i)`
(patterns 1 and 4 of `extractExplanationFromText`): leftmost occurrence of
the literal `pat` whose tail admits a match; returns the capture group. -/
def searchClassCap (pat : List Char) (isCls : Char → Bool) : List Char → Option (List Char)
  | [] => none
  | c :: rest =>
    if lcPrefixAt pat (c :: rest) then
      let base := (c :: rest).drop pat.length
      match tryCaps base (base.takeWhile isCls).length with
      | some cap => some cap
      | none => searchClassCap pat isCls rest
    else searchClassCap pat isCls rest

/-- Model of a case-insensitive `text.match(/PAT\s+([^.]+\.)/i)` (patterns
2 and 3 of `extractExplanationFromText`).  A match at an occurrence of the
literal `pat` needs a non-empty whitespace run, a first full stop at
relative index `d`, and a non-empty capture, so the whitespace run keeps
`i = min(run, d - 1) ≥ 1` characters and the capture spans up to and
including the full stop. -/
def searchDotCap (pat : List Char) : List Char → Option (List Char)
  | [] => none
  | c :: rest =>
    if lcPrefixAt pat (c :: rest) then
      let base := (c :: rest).drop pat.length
      let wsRun := (base.takeWhile isJsWs).length
      match firstIdxOf '.' base with
      | some d =>
        let i := min wsRun (d - 1)
        if 1 ≤ wsRun ∧ 1 ≤ i then some ((base.drop i).take (d - i + 1))
        else searchDotCap pat rest
      | none => searchDotCap pat rest
    else searchDotCap pat rest

/-- Model of `.replace(/['"]/g, '')`. -/
def stripQuotes (l : List Char) : List Char :=
  l.filter (fun c => ¬(c = singleQuoteChar ∨ c = '"'))

/-- Sentence delimiters of `text.split(/[.!?]+/)`. -/
def isSentDelim (c : Char) : Bool :=
  c = '.' ∨ c = '!' ∨ c = '?'

/-- Model of `text.split(/[.!?]+/)`: runs of delimiters separate segments,
with empty leading/trailing segments kept, as in JavaScript.  Fuel-bounded
(`fuel = length + 1` suffices: each step consumes at least one character). -/
def splitSentsFuel (cur : List Char) : Nat → List Char → List (List Char)
  | 0, l => [cur.reverse ++ l]
  | _ + 1, [] => [cur.reverse]
  | fuel + 1, c :: rest =>
    if isSentDelim c then
      cur.reverse :: splitSentsFuel [] fuel (rest.dropWhile isSentDelim)
    else
      splitSentsFuel (c :: cur) fuel rest

/-- Model of `text.split(/[.!?]+/)`. -/
def splitSents (l : List Char) : List (List Char) :=
  splitSentsFuel [] (l.length + 1) l

/-- The key literal scanned for by `/"test_inputs":\s*(\[[\s\S]*?\])/`. -/
def testInputsKey : List Char := "\"test_inputs\":".toList

/-- Model of `text.match(/"test_inputs":\s*(\[[\s\S]*?\])/)` in
`extractTestInputsFromText`: at the leftmost viable occurrence of the key,
skip whitespace, require `[`, and capture lazily up to the first `]`. -/
def testArrSearch : List Char → Option (List Char)
  | [] => none
  | c :: rest =>
    if testInputsKey.isPrefixOf (c :: rest) then
      match ((c :: rest).drop testInputsKey.length).dropWhile isJsonWs with
      | '[' :: arrRest =>
        match firstIdxOf ']' arrRest with
        | some j => some ('[' :: (arrRest.take j ++ [']']))
        | none => testArrSearch rest
      | _ => testArrSearch rest
    else testArrSearch rest

/-! Embeddings of the source functions
(`infrastructure/lambda/agent-core-simple.js`,
`infrastructure/lambda/index.js`). -/

/-- Un-escape pass applied to `policy` in `parseGenerationResponse`:
`policy.replace(/\\n/g, '\n').replace(/\\"/g, '"').replace(/\\t/g, '    ')`. -/
def cleanPolicyString (s : String) : String :=
  jsReplaceAll (jsReplaceAll (jsReplaceAll s "\\n" "\n") "\\\"" "\"") "\\t" "    "

/-- Un-escape pass applied to `explanation` in `parseGenerationResponse`:
`explanation.replace(/\\"/g, '"').replace(/\\n/g, ' ')` — note the
substitutions differ from the policy pass (no tab handling, and a literal
backslash-n becomes a single space, not a newline). -/
def cleanExplanationString (s : String) : String :=
  jsReplaceAll (jsReplaceAll s "\\\"" "\"") "\\n" " "

/-- Model of `ensureCleanContent` (`index.js`) on the string case:
`.replace(/\\n/g, '\n').replace(/\\"/g, '"').replace(/\\t/g, '    ')
.replace(/\\r/g, '\r')`. -/
def ensureCleanContentString (s : String) : String :=
  jsReplaceAll
    (jsReplaceAll (jsReplaceAll (jsReplaceAll s "\\n" "\n") "\\\"" "\"") "\\t" "    ")
    "\\r" "\x0d"

/-- Model of `ensureCleanContent` (`index.js`): non-strings are returned
unchanged. -/
def ensureCleanContent : Json → Json
  | .str s => .str (ensureCleanContentString s)
  | v => v

/-- Apply a cleanup to string values only, the `typeof x === 'string'`
guard around the un-escape passes. -/
def cleanIfString (clean : String → String) : Json → Json
  | .str s => .str (clean s)
  | v => v

/-- Model of `extractPolicyFromText` (`agent-core-simple.js` 796-809):
fenced code block first, then a `package`-led suffix, then the trimmed
whole text. -/
def extractPolicyFromText (text : String) : String :=
  match codeBlockSearch text.toList with
  | some cap => ⟨jsTrimList cap⟩
  | none =>
    match packageSearch text.toList with
    | some suf => ⟨jsTrimList suf⟩
    | none => jsTrim text

/-- Final sentence-scan fallback of `extractExplanationFromText`: split on
sentence punctuation, keep sentences whose trimmed length exceeds 20, and
return the first one mentioning policy/allow/rule. -/
def sentenceFallback (text : List Char) : String :=
  let sents := (splitSents text).filter (fun s => 20 < (jsTrimList s).length)
  match sents.find? (fun s =>
      containsSub "policy".toList (s.map Char.toLower) ||
      containsSub "allow".toList (s.map Char.toLower) ||
      containsSub "rule".toList (s.map Char.toLower)) with
  | some s => ⟨jsTrimList s⟩
  | none => "Policy generated successfully"

/-- Model of `extractExplanationFromText` (`agent-core-simple.js`
814-841): four regex patterns in order, each post-processed by
`.trim().replace(/['"]/g, '')`, then the sentence fallback. -/
def extractExplanationFromText (text : String) : String :=
  match searchClassCap "explanation".toList p1ClassChar text.toList with
  | some cap => ⟨stripQuotes (jsTrimList cap)⟩
  | none =>
  match searchDotCap "this policy".toList text.toList with
  | some cap => ⟨stripQuotes (jsTrimList cap)⟩
  | none =>
  match searchDotCap "the policy".toList text.toList with
  | some cap => ⟨stripQuotes (jsTrimList cap)⟩
  | none =>
  match searchClassCap "explanation:".toList isJsWs text.toList with
  | some cap => ⟨stripQuotes (jsTrimList cap)⟩
  | none => sentenceFallback text.toList

/-- Model of `extractTestInputsFromText` (`agent-core-simple.js`
846-857): parse the captured `"test_inputs": [...]` fragment; any failure
yields the empty array. -/
def extractTestInputsFromText (text : String) : Json :=
  match testArrSearch text.toList with
  | some cap =>
    match jsonParse ⟨cap⟩ with
    | some v => v
    | none => Json.arr []
  | none => Json.arr []

/-- The canonical record produced by `parseGenerationResponse`.  The
impure `timestamp` and `metadata` fields are omitted (constants of the
environment; no control flow reads them). -/
structure PolicyRecord where
  type : String
  policy : Json
  explanation : Json
  test_inputs : Json
deriving Repr

/-- The record built on the direct-JSON-parse path of
`parseGenerationResponse` from the parsed value. -/
def directPathRecord (parsed : Json) (response : String) : PolicyRecord :=
  let policy := cleanIfString cleanPolicyString (jsOrOpt (parsed.getField "policy") (.str ""))
  let explanation :=
    cleanIfString cleanExplanationString (jsOrOpt (parsed.getField "explanation") (.str ""))
  { type := "complete"
    policy := policy
    explanation :=
      if explanation.truthy then explanation else .str (extractExplanationFromText response)
    test_inputs := jsOrOpt (parsed.getField "test_inputs") (.arr []) }

/-- The record built on the JSON-substring fallback path of
`parseGenerationResponse` from the value parsed out of the brace-matched
substring. -/
def extractedPathRecord (extracted : Json) (response : String) : PolicyRecord :=
  let policy := cleanIfString cleanPolicyString (jsOrOpt (extracted.getField "policy") (.str ""))
  let explanation :=
    cleanIfString cleanExplanationString (jsOrOpt (extracted.getField "explanation") (.str ""))
  { type := "complete"
    policy := if policy.truthy then policy else .str (extractPolicyFromText response)
    explanation :=
      if explanation.truthy then explanation else .str (extractExplanationFromText response)
    test_inputs := jsOrOpt (extracted.getField "test_inputs") (extractTestInputsFromText response) }

/-- The record built by the text-heuristic path of
`parseGenerationResponse` (no JSON recovered).  Note no un-escape pass is
applied on this path. -/
def heuristicRecord (response : String) : PolicyRecord :=
  { type := "complete"
    policy := .str (extractPolicyFromText response)
    explanation := .str (extractExplanationFromText response)
    test_inputs := extractTestInputsFromText response }

/-- The catch block of `parseGenerationResponse`: brace-matched substring
retry, then full text extraction. -/
def fallbackParse (response : String) : PolicyRecord :=
  match braceMatch response with
  | some sub =>
    match jsonParse sub with
    | some extracted => extractedPathRecord extracted response
    | none => heuristicRecord response
  | none => heuristicRecord response

/-- Model of `parseGenerationResponse` (`agent-core-simple.js` 711-791).
A parse result of JSON `null` lands in the catch block as well, because
`parsed.policy` throws a `TypeError` on `null`. -/
def parseGenerationResponse (response : String) : PolicyRecord :=
  match jsonParse response with
  | some .null => fallbackParse response
  | some parsed => directPathRecord parsed response
  | none => fallbackParse response

/-- One frame of the synthesized Server-Sent-Events sequence.  The
constructors carry the fields the handlers and the browser client inspect;
the `error` constructor is the `error` member of the client's
`StreamingEvent` union (`frontend` service layer), which the deployed
handler never constructs. -/
inductive StreamEvent where
  | start : StreamEvent
  | policyChar (char : Char) (index : Nat) : StreamEvent
  | explanationChar (char : Char) (index : Nat) : StreamEvent
  | complete (result : PolicyRecord) : StreamEvent
  | error (message : String) : StreamEvent
deriving Repr

/-- The character loop of `handleStreamingGeneration`: one event per
character of a non-empty string; anything that is not a string yields no
events (`.length` is `undefined`, so the loop body never runs). -/
def charEvents (mk : Char → Nat → StreamEvent) : Json → List StreamEvent
  | .str s => if s = "" then [] else s.toList.enum.map (fun q => mk q.2 q.1)
  | _ => []

/-- The event sequence synthesized by `handleStreamingGeneration`
(`index.js` 199-255) on the success path, from the cleaned policy, the
cleaned explanation and the cleaned result record. -/
def synthesizeEvents (cleanPolicy cleanExplanation : Json) (cleanResult : PolicyRecord) :
    List StreamEvent :=
  StreamEvent.start ::
    (charEvents .policyChar cleanPolicy ++
      (charEvents .explanationChar cleanExplanation ++ [StreamEvent.complete cleanResult]))

/-- Character projection of an event (used to state reconstruction). -/
def evChar : StreamEvent → Char
  | .policyChar c _ => c
  | .explanationChar c _ => c
  | _ => ' '

/-- Index projection of an event (used to state index ordering). -/
def evIdx : StreamEvent → Nat
  | .policyChar _ i => i
  | .explanationChar _ i => i
  | _ => 0

/-- Outcome of the streaming handler: either an SSE body made of events,
or a plain JSON error response. -/
inductive StreamingOutcome where
  | sse (status : Nat) (events : List StreamEvent) : StreamingOutcome
  | jsonError (status : Nat) (code : String) (message : String) (details : String) :
      StreamingOutcome
deriving Repr

/-- Model of `handleStreamingGeneration` (`index.js` 199-285) as a
function of the completion outcome (`agent.generatePolicy` result, or the
error it threw).  The success path cleans both fields with
`ensureCleanContent` and synthesizes the event sequence; the catch block
returns a plain 500 JSON response carrying the failure message. -/
def handleStreamingGeneration (completion : Except String PolicyRecord) : StreamingOutcome :=
  match completion with
  | .error msg => .jsonError 500 "STREAMING_ERROR" "Streaming generation failed" msg
  | .ok result =>
    let cleanPolicy := ensureCleanContent (jsOrVal result.policy (.str ""))
    let cleanExplanation := ensureCleanContent (jsOrVal result.explanation (.str ""))
    let cleanResult :=
      { result with policy := cleanPolicy, explanation := cleanExplanation }
    .sse 200 (synthesizeEvents cleanPolicy cleanExplanation cleanResult)

/-- Is the outcome an SSE event stream? -/
def StreamingOutcome.isSse : StreamingOutcome → Bool
  | .sse _ _ => true
  | .jsonError _ _ _ _ => false

/-- Outcome of the generate-policy boundary validation. -/
inductive BoundaryOutcome where
  | badRequest (status : Nat) (code : String) : BoundaryOutcome
  | invokeAgent (instructions : String) : BoundaryOutcome
deriving Repr

/-- Model of the validation at the top of `handleGeneratePolicy`
(`index.js` 131-150): `if (!instructions || typeof instructions !==
'string')` return 400 `INVALID_INPUT`, else proceed to the agent call. -/
def handleGeneratePolicyValidation (instructions : Option Json) : BoundaryOutcome :=
  match instructions with
  | some (.str s) =>
    if s = "" then .badRequest 400 "INVALID_INPUT" else .invokeAgent s
  | _ => .badRequest 400 "INVALID_INPUT"

/-- Outcome of the refine-policy boundary validation. -/
inductive RefineOutcome where
  | badRequest (status : Nat) (code : String) : RefineOutcome
  | invokeAgent (instructions : String) (existing_policy : String) : RefineOutcome
deriving Repr

/-- Model of the validation at the top of `handleRefinePolicy`
(`index.js` 290-323): the same falsy-or-non-string check on
`instructions`, then on `existing_policy`. -/
def handleRefinePolicyValidation (instructions existing_policy : Option Json) : RefineOutcome :=
  match instructions with
  | some (.str s) =>
    if s = "" then .badRequest 400 "INVALID_INPUT"
    else
      match existing_policy with
      | some (.str p) =>
        if p = "" then .badRequest 400 "INVALID_INPUT" else .invokeAgent s p
      | _ => .badRequest 400 "INVALID_INPUT"
  | _ => .badRequest 400 "INVALID_INPUT"

/-- The constant `validation_results` object of `validatePolicy`. -/
structure ValidationResults where
  syntax_valid : Bool
  best_practices : List Json
  security_analysis : List Json
  recommendations : List Json
deriving Repr

/-- The record returned by `validatePolicy`. -/
structure ValidatePolicyResult where
  validation_results : ValidationResults
  explanation : String
deriving Repr

/-- The user prompt built by `validatePolicy`; the policy text flows only
into this prompt. -/
def validationUserPrompt (policy : String) : String :=
  "Please validate this OPA Rego policy for syntax, best practices, and security:\n\n" ++ policy

/-- Model of `validatePolicy` (`agent-core-simple.js` 523-543) given that
the provider call succeeded with raw text `response`: the
`validation_results` are a constant and the raw text lands verbatim in
`explanation`. -/
def validatePolicy (policy : String) (response : String) : ValidatePolicyResult :=
  { validation_results :=
      { syntax_valid := true
        best_practices := []
        security_analysis := []
        recommendations := [] }
    explanation := response }

/-! Specification-side definitions.  These follow the SPEC's words (not
the source) and exist only to be compared with the source embeddings for
the refinement-style claims. -/

/-- Modelled from the spec: scan a brace-balanced `\x7b...\x7d` prefix,
tracking nesting depth (the "first balanced substring" of §4.3 step 2).
`acc` holds the reversed prefix scanned so far. -/
def balancedScan : Nat → List Char → List Char → Option (List Char)
  | _, _, [] => none
  | depth, acc, c :: rest =>
    if c = '\x7b' then balancedScan (depth + 1) (c :: acc) rest
    else if c = '\x7d' then
      match depth with
      | 0 => none
      | 1 => some (c :: acc).reverse
      | d + 2 => balancedScan (d + 1) (c :: acc) rest
    else balancedScan depth (c :: acc) rest

/-- Modelled from the spec: the first balanced `\x7b...\x7d` substring of
the text (first `\x7b`, then its matching `\x7d` accounting for nesting). -/
def firstBalancedBrace (s : String) : Option String :=
  match firstIdxOf '\x7b' s.toList with
  | some i => (balancedScan 0 [] (s.toList.drop i)).map (fun l => ⟨l⟩)
  | none => none

/-- Modelled from the spec: the substring from the first occurrence of
`pat` through the end of the text (the claim's reading of the `package`
branch of text-heuristic extraction, with no whitespace requirement). -/
def specFirstOccurrenceToEnd (pat : List Char) : List Char → Option (List Char)
  | [] => if pat = [] then some [] else none
  | c :: rest =>
    if pat.isPrefixOf (c :: rest) then some (c :: rest)
    else specFirstOccurrenceToEnd pat rest

/-- Modelled from the spec: the per-entry `test_inputs` normalization of
§4.3 step 1 (claim C7): default `description` to `"Test case"`, default
`expected` to `true`, wrap non-objects. -/
def specNormalizeTestEntry (entry : Json) : Json :=
  match entry with
  | .obj fields =>
    .obj
      [("description", jsOrOpt ((Json.obj fields).getField "description") (.str "Test case")),
       ("input", jsOrOpt ((Json.obj fields).getField "input") .null),
       ("expected",
         match (Json.obj fields).getField "expected" with
         | some v => v
         | none => .bool true)]
  | e => .obj [("description", .str "Test case"), ("input", e), ("expected", .bool true)]

/-! Helper lemmas. -/

/-- The character loop produces exactly one event per character, whether
or not the string is empty (the `if (cleanPolicy)` guard only skips an
empty loop). -/
theorem charEvents_str (mk : Char → Nat → StreamEvent) (p : String) :
    charEvents mk (.str p) = p.toList.enum.map (fun q => mk q.2 q.1) := by
  unfold charEvents
  by_cases hp : p = ""
  · subst hp
    simp
  · simp [hp]

/-- Projecting the characters back out of a character-event run recovers
the original string. -/
theorem charEvents_map_evChar (mk : Char → Nat → StreamEvent) (p : String)
    (hmk : ∀ c i, evChar (mk c i) = c) :
    String.mk ((p.toList.enum.map (fun q => mk q.2 q.1)).map evChar) = p := by
  rw [List.map_map]
  have h : (evChar ∘ fun q : Nat × Char => mk q.2 q.1) = Prod.snd := by
    funext q
    exact hmk q.2 q.1
  rw [h, List.enum_map_snd]
  rfl

/-- The indices of a character-event run are `0, 1, 2, ...` in order. -/
theorem charEvents_map_evIdx (mk : Char → Nat → StreamEvent) (p : String)
    (hmk : ∀ c i, evIdx (mk c i) = i) :
    (p.toList.enum.map (fun q => mk q.2 q.1)).map evIdx = List.range p.length := by
  rw [List.map_map]
  have h : (evIdx ∘ fun q : Nat × Char => mk q.2 q.1) = Prod.fst := by
    funext q
    exact hmk q.2 q.1
  rw [h, List.enum_map_fst]
  rfl

/-! Claim theorems. -/

/-- Claim C2: for every policy string, explanation string and record, the
synthesizer emits exactly one `start`, then one `policy_char` per
character of the policy with indices `0, 1, ...` in document order, then
one `explanation_char` per character of the explanation likewise, then
exactly one terminal `complete`; concatenating the `char` fields of each
run reconstructs the corresponding string exactly, and the record with
policy `"ab"` and explanation `"c"` yields exactly the five events
`start, policy_char('a',0), policy_char('b',1), explanation_char('c',0),
complete` in that order. -/
theorem C2_stream_synthesis (p e : String) (r : PolicyRecord) :
    synthesizeEvents (.str p) (.str e) r =
      StreamEvent.start ::
        ((p.toList.enum.map fun q => StreamEvent.policyChar q.2 q.1) ++
          ((e.toList.enum.map fun q => StreamEvent.explanationChar q.2 q.1) ++
            [StreamEvent.complete r])) ∧
    String.mk ((p.toList.enum.map fun q => StreamEvent.policyChar q.2 q.1).map evChar) = p ∧
    (p.toList.enum.map fun q => StreamEvent.policyChar q.2 q.1).map evIdx
      = List.range p.length ∧
    String.mk ((e.toList.enum.map fun q => StreamEvent.explanationChar q.2 q.1).map evChar)
      = e ∧
    (e.toList.enum.map fun q => StreamEvent.explanationChar q.2 q.1).map evIdx
      = List.range e.length ∧
    synthesizeEvents (.str "ab") (.str "c") r =
      [StreamEvent.start, StreamEvent.policyChar 'a' 0, StreamEvent.policyChar 'b' 1,
        StreamEvent.explanationChar 'c' 0, StreamEvent.complete r] := by
  refine ⟨?_, ?_, ?_, ?_, ?_, ?_⟩
  · unfold synthesizeEvents
    rw [charEvents_str, charEvents_str]
  · exact charEvents_map_evChar _ p (fun _ _ => rfl)
  · exact charEvents_map_evIdx _ p (fun _ _ => rfl)
  · exact charEvents_map_evChar _ e (fun _ _ => rfl)
  · exact charEvents_map_evIdx _ e (fun _ _ => rfl)
  · rfl

/-- Claim C4 (counterexample): when the completion call fails (here with a
rate-limit message), the deployed streaming handler does NOT synthesize a
single `error` event — it emits no SSE event stream at all, returning a
plain 500 JSON error response instead. -/
theorem C4_counterexample :
    handleStreamingGeneration (.error "Rate limit exceeded") =
      .jsonError 500 "STREAMING_ERROR" "Streaming generation failed" "Rate limit exceeded" ∧
    handleStreamingGeneration (.error "Rate limit exceeded") ≠
      .sse 200 [StreamEvent.error "Rate limit exceeded"] ∧
    (handleStreamingGeneration (.error "Rate limit exceeded")).isSse = false := by
  refine ⟨rfl, ?_, rfl⟩
  intro h
  simp [handleStreamingGeneration] at h

/-- Claim C4 (amended): for every streaming-mode request whose completion call
fails, the handler returns a single plain JSON error response (HTTP 500,
code `STREAMING_ERROR`, details carrying the failure message), and no SSE
events — in particular no `start`, `policy_char` or `explanation_char`
events — are ever emitted for that failed request. -/
theorem C4_error_path (msg : String) :
    handleStreamingGeneration (.error msg) =
      .jsonError 500 "STREAMING_ERROR" "Streaming generation failed" msg ∧
    ∀ (status : Nat) (events : List StreamEvent),
      handleStreamingGeneration (.error msg) ≠ .sse status events := by
  refine ⟨rfl, ?_⟩
  intro status events h
  simp [handleStreamingGeneration] at h

/-- Claim C8 (counterexample): a whitespace-only `instructions` field is NOT
rejected by the generate-policy boundary — it proceeds to the agent
invocation, contradicting the claim that whitespace-only instructions
fail with `InvalidInput`. -/
theorem C8_counterexample :
    handleGeneratePolicyValidation (some (Json.str " ")) = .invokeAgent " " ∧
    handleGeneratePolicyValidation (some (Json.str " ")) ≠ .badRequest 400 "INVALID_INPUT" ∧
    jsTrim " " = "" := by
  refine ⟨rfl, ?_, rfl⟩
  intro h
  simp [handleGeneratePolicyValidation] at h

/-- Claim C8 (amended): for generate-policy and refine-policy, a request is
rejected at the boundary with 400 `INVALID_INPUT` — before any prompt is
built or provider call is made — exactly when a required text field
(`instructions`, and for refine also `existing_policy`) is missing,
non-string, or the empty string; a whitespace-only `instructions` is NOT
rejected and proceeds to the agent call. -/
theorem C8_boundary_validation :
    (∀ v : Option Json,
      handleGeneratePolicyValidation v = .badRequest 400 "INVALID_INPUT" ↔
        ¬∃ s : String, v = some (Json.str s) ∧ s ≠ "") ∧
    (∀ v w : Option Json,
      handleRefinePolicyValidation v w = .badRequest 400 "INVALID_INPUT" ↔
        ¬∃ s p : String, v = some (Json.str s) ∧ s ≠ "" ∧ w = some (Json.str p) ∧ p ≠ "") ∧
    handleGeneratePolicyValidation (some (Json.str "   ")) = .invokeAgent "   " := by
  refine ⟨?_, ?_, rfl⟩
  · intro v
    match v with
    | none => simp [handleGeneratePolicyValidation]
    | some (Json.null) => simp [handleGeneratePolicyValidation]
    | some (Json.bool b) => simp [handleGeneratePolicyValidation]
    | some (Json.num n) => simp [handleGeneratePolicyValidation]
    | some (Json.arr xs) => simp [handleGeneratePolicyValidation]
    | some (Json.obj fs) => simp [handleGeneratePolicyValidation]
    | some (Json.str s) =>
      by_cases hs : s = "" <;> simp [handleGeneratePolicyValidation, hs]
  · intro v w
    match v with
    | none => simp [handleRefinePolicyValidation]
    | some (Json.null) => simp [handleRefinePolicyValidation]
    | some (Json.bool b) => simp [handleRefinePolicyValidation]
    | some (Json.num n) => simp [handleRefinePolicyValidation]
    | some (Json.arr xs) => simp [handleRefinePolicyValidation]
    | some (Json.obj fs) => simp [handleRefinePolicyValidation]
    | some (Json.str s) =>
      by_cases hs : s = ""
      · simp [handleRefinePolicyValidation, hs]
      · match w with
        | none => simp [handleRefinePolicyValidation, hs]
        | some (Json.null) => simp [handleRefinePolicyValidation, hs]
        | some (Json.bool b) => simp [handleRefinePolicyValidation, hs]
        | some (Json.num n) => simp [handleRefinePolicyValidation, hs]
        | some (Json.arr xs) => simp [handleRefinePolicyValidation, hs]
        | some (Json.obj fs) => simp [handleRefinePolicyValidation, hs]
        | some (Json.str p) =>
          by_cases hp : p = "" <;> simp [handleRefinePolicyValidation, hs, hp]

/-- Claim C10: whenever the provider call succeeds, `validatePolicy` returns the
constant `validation_results` object — `syntax_valid: true` and three
empty lists — independent of the policy's content, and the provider's raw
text appears only in the `explanation` field. -/
theorem C10_validate_constant_results (policy response : String) :
    (validatePolicy policy response).validation_results =
      { syntax_valid := true
        best_practices := []
        security_analysis := []
        recommendations := [] } ∧
    (validatePolicy policy response).explanation = response ∧
    ∀ policy2 : String, validatePolicy policy response = validatePolicy policy2 response :=
  ⟨rfl, rfl, fun _ => rfl⟩

/-- Claim C3 (failing input): on a response whose `policy` field is itself a
JSON-object string, the deployed normalizer performs NO nested-JSON
unwrap — the returned policy is still the wrapped JSON text (even though
parsing it again would succeed, second conjunct), contradicting the
claimed inner-object replacement; and a response whose `policy` field is
an object is returned with an object policy, contradicting the claim that
the final policy is always a string.  (The source's own comment at this
spot says it handles nested JSON in the policy field.) -/
theorem C3_nested_unwrap_missing :
    (parseGenerationResponse
        "\x7b\"policy\":\"\x7b\\\"policy\\\":\\\"pkg\\\",\\\"test_inputs\\\":[]\x7d\",\"explanation\":\"e\",\"test_inputs\":[]\x7d").policy
      = Json.str "\x7b\"policy\":\"pkg\",\"test_inputs\":[]\x7d" ∧
    jsonParse "\x7b\"policy\":\"pkg\",\"test_inputs\":[]\x7d" =
      some (Json.obj [("policy", Json.str "pkg"), ("test_inputs", Json.arr [])]) ∧
    (parseGenerationResponse "\x7b\"policy\":\x7b\"a\":1\x7d\x7d").policy =
      Json.obj [("a", Json.num 1)] :=
  ⟨rfl, rfl, rfl⟩

/-- Claim C5 (counterexample): the un-escape pass applied to `explanation` is
NOT the same as the one applied to `policy` (a literal backslash-n becomes
a space, not a newline), and the text-heuristic path applies no un-escape
pass at all. -/
theorem C5_counterexample :
    (parseGenerationResponse
        "\x7b\"policy\":\"a\\\\nb\",\"explanation\":\"a\\\\nb\",\"test_inputs\":[]\x7d").policy
      = Json.str "a\nb" ∧
    (parseGenerationResponse
        "\x7b\"policy\":\"a\\\\nb\",\"explanation\":\"a\\\\nb\",\"test_inputs\":[]\x7d").explanation
      = Json.str "a b" ∧
    ("a b" : String) ≠ "a\nb" ∧
    (parseGenerationResponse "package a\\nb").policy = Json.str "package a\\nb" ∧
    ("package a\\nb" : String) ≠ "package a\nb" := by
  refine ⟨rfl, rfl, by decide, rfl, by decide⟩

/-- Claim C6 (counterexample): the fallback retry does not use the first
balanced brace substring: on `a\x7b"p":1\x7db\x7b"q":2\x7dc` the code's
greedy regex spans from the first `\x7b` to the LAST `\x7d`, producing an
unparsable substring (so the normalizer degrades to text heuristics),
while the first balanced substring would have parsed. -/
theorem C6_counterexample :
    braceMatch "a\x7b\"p\":1\x7db\x7b\"q\":2\x7dc" = some "\x7b\"p\":1\x7db\x7b\"q\":2\x7d" ∧
    firstBalancedBrace "a\x7b\"p\":1\x7db\x7b\"q\":2\x7dc" = some "\x7b\"p\":1\x7d" ∧
    ("\x7b\"p\":1\x7db\x7b\"q\":2\x7d" : String) ≠ "\x7b\"p\":1\x7d" ∧
    jsonParse "\x7b\"p\":1\x7db\x7b\"q\":2\x7d" = none ∧
    jsonParse "\x7b\"p\":1\x7d" = some (Json.obj [("p", Json.num 1)]) ∧
    jsonParse "a\x7b\"p\":1\x7db\x7b\"q\":2\x7dc" = none ∧
    parseGenerationResponse "a\x7b\"p\":1\x7db\x7b\"q\":2\x7dc" =
      heuristicRecord "a\x7b\"p\":1\x7db\x7b\"q\":2\x7dc" :=
  ⟨rfl, rfl, by decide, rfl, rfl, rfl, rfl⟩

/-- Claim C7 (counterexample): a non-object `test_inputs` entry (here the number
5) is passed through exactly as parsed, not wrapped into the claimed
`(description, input, expected)` shape. -/
theorem C7_counterexample :
    (parseGenerationResponse
        "\x7b\"policy\":\"p\",\"explanation\":\"e\",\"test_inputs\":[5]\x7d").test_inputs
      = Json.arr [Json.num 5] ∧
    Json.arr [Json.num 5] ≠ Json.arr [specNormalizeTestEntry (Json.num 5)] := by
  refine ⟨rfl, ?_⟩
  simp [specNormalizeTestEntry]

/-- Claim C9 (counterexample): on the raw text `x package` — no fenced block, no
recoverable JSON, and the token `package` present but at the very end —
the claim predicts the policy `package` (substring from the first
occurrence of the token through the end), but the code's regex requires a
whitespace character AFTER `package`, so it falls through to the trimmed
full text. -/
theorem C9_counterexample :
    codeBlockSearch ("x package").toList = none ∧
    specFirstOccurrenceToEnd packageWord ("x package").toList = some ("package").toList ∧
    packageSearch ("x package").toList = none ∧
    extractPolicyFromText "x package" = "x package" ∧
    ("x package" : String) ≠ "package" :=
  ⟨rfl, rfl, rfl, rfl, by decide⟩

/-- Claim C1: the normalizer is total — for every input string it returns a
`PolicyRecord` (with the `complete` discriminator) and never throws; every
exception point of the source (`JSON.parse`, member access on `null`) is a
handled branch, and when both the direct parse and the brace-substring
retry fail, the result is exactly the text-heuristic record. -/
theorem C1_normalizer_total :
    (∀ s : String, (parseGenerationResponse s).type = "complete") ∧
    (∀ s : String, (jsonParse s = none ∨ jsonParse s = some Json.null) →
      (braceMatch s).bind jsonParse = none →
      parseGenerationResponse s = heuristicRecord s) := by
  constructor
  · intro s
    unfold parseGenerationResponse
    cases hj : jsonParse s with
    | none =>
      show (fallbackParse s).type = "complete"
      unfold fallbackParse
      cases hb : braceMatch s with
      | none => rfl
      | some sub =>
        show (match jsonParse sub with
          | some extracted => extractedPathRecord extracted s
          | none => heuristicRecord s).type = "complete"
        cases hjs : jsonParse sub with
        | none => rfl
        | some x => rfl
    | some parsed =>
      cases parsed with
      | null =>
        show (fallbackParse s).type = "complete"
        unfold fallbackParse
        cases hb : braceMatch s with
        | none => rfl
        | some sub =>
          show (match jsonParse sub with
            | some extracted => extractedPathRecord extracted s
            | none => heuristicRecord s).type = "complete"
          cases hjs : jsonParse sub with
          | none => rfl
          | some x => rfl
      | bool b => rfl
      | num n => rfl
      | str t => rfl
      | arr xs => rfl
      | obj fs => rfl
  · intro s h1 h2
    have hfall : parseGenerationResponse s = fallbackParse s := by
      unfold parseGenerationResponse
      rcases h1 with h | h
      · rw [h]
      · rw [h]
    rw [hfall]
    unfold fallbackParse
    cases hb : braceMatch s with
    | none => rfl
    | some sub =>
      rw [hb] at h2
      rw [Option.some_bind] at h2
      show (match jsonParse sub with
        | some extracted => extractedPathRecord extracted s
        | none => heuristicRecord s) = heuristicRecord s
      rw [h2]

/-- Claim C1 (witness): on the plainly non-JSON input `hello`, both parse
attempts fail and the normalizer returns the heuristic record, with the
`complete` discriminator. -/
theorem C1_normalizer_total_witness :
    parseGenerationResponse "hello" = heuristicRecord "hello" ∧
    (parseGenerationResponse "hello").type = "complete" :=
  ⟨C1_normalizer_total.2 "hello" (Or.inl rfl) rfl, C1_normalizer_total.1 "hello"⟩

/-- Claim C5 (amended): on the direct-parse path AND on the JSON-substring
fallback path the `policy` field gets the policy un-escape pass
(backslash-n to newline, backslash-quote to quote, backslash-t to four
spaces) while `explanation` gets a DIFFERENT pass (backslash-quote to
quote, backslash-n to a single space, no tab handling); the
text-heuristic path applies no un-escape pass at all (its record is built
purely from the extractors); and the two passes demonstrably differ. -/
theorem C5_unescape_pass :
    (∀ (s : String) (parsed : Json), jsonParse s = some parsed → parsed ≠ Json.null →
      (parseGenerationResponse s).policy =
        cleanIfString cleanPolicyString (jsOrOpt (parsed.getField "policy") (Json.str "")) ∧
      (parseGenerationResponse s).explanation =
        (if (cleanIfString cleanExplanationString
              (jsOrOpt (parsed.getField "explanation") (Json.str ""))).truthy then
          cleanIfString cleanExplanationString
            (jsOrOpt (parsed.getField "explanation") (Json.str ""))
        else Json.str (extractExplanationFromText s))) ∧
    (∀ (s sub : String) (extracted : Json),
      (jsonParse s = none ∨ jsonParse s = some Json.null) →
      braceMatch s = some sub → jsonParse sub = some extracted →
      (parseGenerationResponse s).policy =
        (if (cleanIfString cleanPolicyString
              (jsOrOpt (extracted.getField "policy") (Json.str ""))).truthy then
          cleanIfString cleanPolicyString (jsOrOpt (extracted.getField "policy") (Json.str ""))
        else Json.str (extractPolicyFromText s)) ∧
      (parseGenerationResponse s).explanation =
        (if (cleanIfString cleanExplanationString
              (jsOrOpt (extracted.getField "explanation") (Json.str ""))).truthy then
          cleanIfString cleanExplanationString
            (jsOrOpt (extracted.getField "explanation") (Json.str ""))
        else Json.str (extractExplanationFromText s))) ∧
    (∀ s : String, jsonParse s = none → braceMatch s = none →
      parseGenerationResponse s = heuristicRecord s) ∧
    cleanPolicyString "a\\nb" = "a\nb" ∧
    cleanExplanationString "a\\nb" = "a b" ∧
    cleanPolicyString "a\\tb" = "a    b" ∧
    cleanExplanationString "a\\tb" = "a\\tb" := by
  refine ⟨?_, ?_, ?_, rfl, rfl, rfl, rfl⟩
  · intro s parsed h hnull
    have hdir : parseGenerationResponse s = directPathRecord parsed s := by
      unfold parseGenerationResponse
      rw [h]
      cases parsed with
      | null => exact absurd rfl hnull
      | bool b => rfl
      | num n => rfl
      | str t => rfl
      | arr xs => rfl
      | obj fs => rfl
    rw [hdir]
    exact ⟨rfl, rfl⟩
  · intro s sub extracted h1 hb hsub
    have hfall : parseGenerationResponse s = fallbackParse s := by
      unfold parseGenerationResponse
      rcases h1 with h | h
      · rw [h]
      · rw [h]
    have hext : parseGenerationResponse s = extractedPathRecord extracted s := by
      rw [hfall]
      unfold fallbackParse
      rw [hb]
      show (match jsonParse sub with
        | some extracted => extractedPathRecord extracted s
        | none => heuristicRecord s) = extractedPathRecord extracted s
      rw [hsub]
    rw [hext]
    exact ⟨rfl, rfl⟩
  · intro s h1 h2
    unfold parseGenerationResponse
    rw [h1]
    unfold fallbackParse
    rw [h2]

/-- Claim C5 (witness): the direct-path equations instantiated at a concrete
successfully-parsed response, and the JSON-substring-path equations
instantiated at a concrete response whose direct parse fails but whose
brace span parses. -/
theorem C5_unescape_pass_witness :
    ((parseGenerationResponse "\x7b\"policy\":\"ok\",\"explanation\":\"fine\"\x7d").policy =
      cleanIfString cleanPolicyString
        (jsOrOpt ((Json.obj [("policy", Json.str "ok"), ("explanation", Json.str "fine")]).getField
          "policy") (Json.str "")) ∧
    (parseGenerationResponse "\x7b\"policy\":\"ok\",\"explanation\":\"fine\"\x7d").explanation =
      (if (cleanIfString cleanExplanationString
            (jsOrOpt ((Json.obj [("policy", Json.str "ok"),
              ("explanation", Json.str "fine")]).getField "explanation") (Json.str ""))).truthy then
        cleanIfString cleanExplanationString
          (jsOrOpt ((Json.obj [("policy", Json.str "ok"),
            ("explanation", Json.str "fine")]).getField "explanation") (Json.str ""))
      else Json.str
        (extractExplanationFromText "\x7b\"policy\":\"ok\",\"explanation\":\"fine\"\x7d"))) ∧
    ((parseGenerationResponse
        "junk \x7b\"policy\":\"a\\\\nb\",\"explanation\":\"a\\\\nb\"\x7d").policy =
      (if (cleanIfString cleanPolicyString
            (jsOrOpt ((Json.obj [("policy", Json.str "a\\nb"),
              ("explanation", Json.str "a\\nb")]).getField "policy") (Json.str ""))).truthy then
        cleanIfString cleanPolicyString
          (jsOrOpt ((Json.obj [("policy", Json.str "a\\nb"),
            ("explanation", Json.str "a\\nb")]).getField "policy") (Json.str ""))
      else Json.str
        (extractPolicyFromText
          "junk \x7b\"policy\":\"a\\\\nb\",\"explanation\":\"a\\\\nb\"\x7d")) ∧
    (parseGenerationResponse
        "junk \x7b\"policy\":\"a\\\\nb\",\"explanation\":\"a\\\\nb\"\x7d").explanation =
      (if (cleanIfString cleanExplanationString
            (jsOrOpt ((Json.obj [("policy", Json.str "a\\nb"),
              ("explanation", Json.str "a\\nb")]).getField "explanation") (Json.str ""))).truthy then
        cleanIfString cleanExplanationString
          (jsOrOpt ((Json.obj [("policy", Json.str "a\\nb"),
            ("explanation", Json.str "a\\nb")]).getField "explanation") (Json.str ""))
      else Json.str
        (extractExplanationFromText
          "junk \x7b\"policy\":\"a\\\\nb\",\"explanation\":\"a\\\\nb\"\x7d"))) :=
  ⟨C5_unescape_pass.1 "\x7b\"policy\":\"ok\",\"explanation\":\"fine\"\x7d"
    (Json.obj [("policy", Json.str "ok"), ("explanation", Json.str "fine")]) rfl (by simp),
   C5_unescape_pass.2.1
    "junk \x7b\"policy\":\"a\\\\nb\",\"explanation\":\"a\\\\nb\"\x7d"
    "\x7b\"policy\":\"a\\\\nb\",\"explanation\":\"a\\\\nb\"\x7d"
    (Json.obj [("policy", Json.str "a\\nb"), ("explanation", Json.str "a\\nb")])
    (Or.inl rfl) rfl rfl⟩

/-- Claim C7 (amended): on every successfully parsed response the returned
`test_inputs` is the parsed `test_inputs` value passed through exactly as
is (defaulting to the empty array only when the field is missing or
falsy); no per-entry `(description, input, expected)` normalization is
performed. -/
theorem C7_test_inputs_passthrough (s : String) (parsed : Json)
    (h : jsonParse s = some parsed) (hnull : parsed ≠ Json.null) :
    (parseGenerationResponse s).test_inputs =
      jsOrOpt (parsed.getField "test_inputs") (Json.arr []) := by
  unfold parseGenerationResponse
  rw [h]
  cases parsed with
  | null => exact absurd rfl hnull
  | bool b => rfl
  | num n => rfl
  | str t => rfl
  | arr xs => rfl
  | obj fs => rfl

/-- Claim C7 (witness): the pass-through equation instantiated at the concrete
response whose `test_inputs` is `[5]`. -/
theorem C7_test_inputs_passthrough_witness :
    (parseGenerationResponse
        "\x7b\"policy\":\"p\",\"explanation\":\"e\",\"test_inputs\":[5]\x7d").test_inputs =
      jsOrOpt ((Json.obj [("policy", Json.str "p"), ("explanation", Json.str "e"),
        ("test_inputs", Json.arr [Json.num 5])]).getField "test_inputs") (Json.arr []) :=
  C7_test_inputs_passthrough
    "\x7b\"policy\":\"p\",\"explanation\":\"e\",\"test_inputs\":[5]\x7d"
    (Json.obj [("policy", Json.str "p"), ("explanation", Json.str "e"),
      ("test_inputs", Json.arr [Json.num 5])]) rfl (by simp)

/-- Decomposition characterizing `firstIdxOf`: the element occurs at the
reported index and nowhere earlier. -/
theorem firstIdxOf_spec (c : Char) :
    ∀ (l : List Char) (i : Nat), firstIdxOf c l = some i →
      ∃ pre suf, l = pre ++ c :: suf ∧ pre.length = i ∧ c ∉ pre := by
  intro l
  induction l with
  | nil => intro i h; simp [firstIdxOf] at h
  | cons x xs ih =>
    intro i h
    by_cases hx : x = c
    · subst hx
      rw [firstIdxOf, if_pos rfl] at h
      obtain rfl : (0 : Nat) = i := Option.some.inj h
      exact ⟨[], xs, by simp, by simp, by simp⟩
    · rw [firstIdxOf, if_neg hx] at h
      obtain ⟨i', hi', hii⟩ := Option.map_eq_some'.mp h
      obtain ⟨pre, suf, hl, hlen, hmem⟩ := ih i' hi'
      refine ⟨x :: pre, suf, by simp [hl], by simp [hlen, hii.symm], ?_⟩
      simp only [List.mem_cons]
      rintro (hcx | hcp)
      · exact hx hcx.symm
      · exact hmem hcp

/-- Decomposition characterizing `lastIdxOf`: the element occurs at the
reported index and nowhere later. -/
theorem lastIdxOf_spec (c : Char) (l : List Char) (j : Nat) (h : lastIdxOf c l = some j) :
    ∃ pre suf, l = pre ++ c :: suf ∧ pre.length = j ∧ c ∉ suf := by
  unfold lastIdxOf at h
  obtain ⟨k, hk, hj⟩ := Option.map_eq_some'.mp h
  obtain ⟨pre', suf', hrev, hlen', hmem'⟩ := firstIdxOf_spec c l.reverse k hk
  have hl : l = suf'.reverse ++ c :: pre'.reverse := by
    have h0 : l = l.reverse.reverse := (List.reverse_reverse l).symm
    rw [h0, hrev]
    simp [List.reverse_append]
  have hlenl : l.length = pre'.length + suf'.length + 1 := by
    have := congrArg List.length hrev
    simp at this
    omega
  refine ⟨suf'.reverse, pre'.reverse, hl, ?_, ?_⟩
  · simp only [List.length_reverse]
    omega
  · simpa [List.mem_reverse] using hmem'

/-- Claim C6 (amended): when the direct parse fails, the normalizer retries the
parse on exactly the greedy brace span of the raw text — the substring
from the FIRST opening brace through the LAST closing brace (the match of
`/\x7b[\s\S]*\x7d/`), not the first balanced substring — and the result
is the extracted-path record on success of that retry and the heuristic
record otherwise. -/
theorem C6_greedy_span (s sub : String) (h : braceMatch s = some sub) :
    (∃ pre mid post : List Char,
      s.toList = pre ++ '\x7b' :: (mid ++ '\x7d' :: post) ∧
      sub.toList = '\x7b' :: (mid ++ ['\x7d']) ∧
      '\x7b' ∉ pre ∧ '\x7d' ∉ post) ∧
    (jsonParse s = none →
      parseGenerationResponse s =
        match jsonParse sub with
        | some extracted => extractedPathRecord extracted s
        | none => heuristicRecord s) := by
  constructor
  · unfold braceMatch at h
    cases hf : firstIdxOf '\x7b' s.toList with
    | none => rw [hf] at h; exact Option.noConfusion h
    | some i =>
      cases hg : lastIdxOf '\x7d' s.toList with
      | none => rw [hf, hg] at h; exact Option.noConfusion h
      | some j =>
        rw [hf, hg] at h
        have h' : (if i < j then some (⟨(s.toList.drop i).take (j - i + 1)⟩ : String)
            else none) = some sub := h
        by_cases hij : i < j
        · rw [if_pos hij] at h'
          have hsub : sub = ⟨(s.toList.drop i).take (j - i + 1)⟩ := (Option.some.inj h').symm
          obtain ⟨pre1, suf1, hA, hAi, hAmem⟩ := firstIdxOf_spec _ _ _ hf
          obtain ⟨pre2, suf2, hB, hBj, hBmem⟩ := lastIdxOf_spec _ _ _ hg
          have hlenA := congrArg List.length hA
          have hlenB := congrArg List.length hB
          simp only [List.length_append, List.length_cons] at hlenA hlenB
          have hpre2 : pre2 = pre1 ++ '\x7b' :: suf1.take (j - i - 1) := by
            have h1 : pre2 = s.toList.take j := by
              conv_rhs => rw [hB, ← hBj]
              exact (List.take_left pre2 _).symm
            rw [h1, hA, List.take_append_eq_append_take]
            rw [List.take_of_length_le (by omega)]
            congr 1
            rw [hAi]
            have hj1 : j - i = (j - i - 1) + 1 := by omega
            rw [hj1, List.take_succ_cons]
            rfl
          have hsuf1 : suf1 = suf1.take (j - i - 1) ++ '\x7d' :: suf2 := by
            have hAB : pre1 ++ '\x7b' :: suf1 = pre2 ++ '\x7d' :: suf2 := hA.symm.trans hB
            rw [hpre2, List.append_assoc] at hAB
            have h2 := List.append_cancel_left hAB
            rw [List.cons_append] at h2
            exact (List.cons.injEq _ _ _ _ ▸ h2).2
          refine ⟨pre1, suf1.take (j - i - 1), suf2, ?_, ?_, hAmem, hBmem⟩
          · rw [hA]
            congr 1
            rw [← hsuf1]
          · rw [hsub]
            show (s.toList.drop i).take (j - i + 1) = '\x7b' :: (suf1.take (j - i - 1) ++ ['\x7d'])
            have hdrop : s.toList.drop i = '\x7b' :: suf1 := by
              conv_lhs => rw [hA, ← hAi]
              exact List.drop_left pre1 _
            rw [hdrop, List.take_succ_cons]
            congr 1
            have hmidlen : (suf1.take (j - i - 1)).length = j - i - 1 := by
              rw [List.length_take]
              omega
            conv_lhs => rw [hsuf1]
            rw [List.take_append_eq_append_take]
            rw [List.take_of_length_le (by omega)]
            rw [hmidlen]
            have hone : j - i - (j - i - 1) = 1 := by omega
            rw [hone]
            rfl
        · rw [if_neg hij] at h'
          exact Option.noConfusion h'
  · intro hn
    unfold parseGenerationResponse
    rw [hn]
    unfold fallbackParse
    rw [h]

/-- Claim C6 (amended, witness): the greedy-span characterization and the retry
behaviour instantiated on the counterexample text. -/
theorem C6_greedy_span_witness :
    (∃ pre mid post : List Char,
      ("a\x7b\"p\":1\x7db\x7b\"q\":2\x7dc" : String).toList =
        pre ++ '\x7b' :: (mid ++ '\x7d' :: post) ∧
      ("\x7b\"p\":1\x7db\x7b\"q\":2\x7d" : String).toList = '\x7b' :: (mid ++ ['\x7d']) ∧
      '\x7b' ∉ pre ∧ '\x7d' ∉ post) ∧
    (jsonParse "a\x7b\"p\":1\x7db\x7b\"q\":2\x7dc" = none →
      parseGenerationResponse "a\x7b\"p\":1\x7db\x7b\"q\":2\x7dc" =
        match jsonParse "\x7b\"p\":1\x7db\x7b\"q\":2\x7d" with
        | some extracted => extractedPathRecord extracted "a\x7b\"p\":1\x7db\x7b\"q\":2\x7dc"
        | none => heuristicRecord "a\x7b\"p\":1\x7db\x7b\"q\":2\x7dc") :=
  C6_greedy_span "a\x7b\"p\":1\x7db\x7b\"q\":2\x7dc" "\x7b\"p\":1\x7db\x7b\"q\":2\x7d" rfl

/-- Characterization of `packageSearch`: the returned suffix starts at the
FIRST occurrence of `package` followed by a whitespace character. -/
theorem packageSearch_spec :
    ∀ (l suf : List Char), packageSearch l = some suf →
      ∃ pre, l = pre ++ suf ∧ packageWord.isPrefixOf suf = true ∧
        ((suf.drop 7).head?.any isJsWs) = true ∧
        ∀ pre2 suf2, l = pre2 ++ suf2 → packageWord.isPrefixOf suf2 = true →
          ((suf2.drop 7).head?.any isJsWs) = true → pre.length ≤ pre2.length := by
  intro l
  induction l with
  | nil => intro suf h; simp [packageSearch] at h
  | cons c rest ih =>
    intro suf h
    rw [packageSearch] at h
    by_cases hcond :
        packageWord.isPrefixOf (c :: rest) = true ∧ (((c :: rest).drop 7).head?.any isJsWs) = true
    · rw [if_pos ⟨hcond.1, hcond.2⟩] at h
      obtain rfl : c :: rest = suf := Option.some.inj h
      exact ⟨[], by simp, hcond.1, hcond.2, fun _ _ _ _ _ => Nat.zero_le _⟩
    · have hcond' :
          ¬((packageWord.isPrefixOf (c :: rest) : Prop) ∧
            ((((c :: rest).drop 7).head?.any isJsWs) : Prop)) := by
        intro hc
        exact hcond ⟨hc.1, hc.2⟩
      rw [if_neg hcond'] at h
      obtain ⟨pre, hsplit, hp1, hp2, hmin⟩ := ih suf h
      refine ⟨c :: pre, by simp [hsplit], hp1, hp2, ?_⟩
      intro pre2 suf2 hsplit2 h1 h2
      cases pre2 with
      | nil =>
        simp only [List.nil_append] at hsplit2
        subst hsplit2
        exact absurd ⟨h1, h2⟩ hcond'
      | cons c2 pre2' =>
        have hrest : rest = pre2' ++ suf2 := by
          injection hsplit2
        have := hmin pre2' suf2 hrest h1 h2
        simp only [List.length_cons]
        omega

/-- Claim C9 (amended): with no recoverable JSON, the extracted policy is the
trimmed contents of the first fenced code block when one exists; otherwise
the trimmed suffix starting at the first occurrence of `package` that is
FOLLOWED BY A WHITESPACE character, when one exists; otherwise the full
raw text trimmed. -/
theorem C9_extraction_cascade :
    (∀ (s : String) (cap : List Char), codeBlockSearch s.toList = some cap →
      extractPolicyFromText s = ⟨jsTrimList cap⟩) ∧
    (∀ (s : String) (suf : List Char), codeBlockSearch s.toList = none →
      packageSearch s.toList = some suf →
      extractPolicyFromText s = ⟨jsTrimList suf⟩ ∧
      ∃ pre, s.toList = pre ++ suf ∧ packageWord.isPrefixOf suf = true ∧
        ((suf.drop 7).head?.any isJsWs) = true ∧
        ∀ pre2 suf2, s.toList = pre2 ++ suf2 → packageWord.isPrefixOf suf2 = true →
          ((suf2.drop 7).head?.any isJsWs) = true → pre.length ≤ pre2.length) ∧
    (∀ s : String, codeBlockSearch s.toList = none → packageSearch s.toList = none →
      extractPolicyFromText s = jsTrim s) := by
  refine ⟨?_, ?_, ?_⟩
  · intro s cap h
    unfold extractPolicyFromText
    rw [h]
  · intro s suf h1 h2
    constructor
    · unfold extractPolicyFromText
      rw [h1, h2]
    · exact packageSearch_spec _ _ h2
  · intro s h1 h2
    unfold extractPolicyFromText
    rw [h1, h2]

/-- Claim C9 (amended, witness): the package branch instantiated on
`see package x`. -/
theorem C9_extraction_cascade_witness :
    extractPolicyFromText "see package x" = ⟨jsTrimList ("package x").toList⟩ ∧
    ∃ pre, ("see package x" : String).toList = pre ++ ("package x").toList ∧
      packageWord.isPrefixOf ("package x").toList = true ∧
      ((("package x").toList.drop 7).head?.any isJsWs) = true ∧
      ∀ pre2 suf2, ("see package x" : String).toList = pre2 ++ suf2 →
        packageWord.isPrefixOf suf2 = true →
        ((suf2.drop 7).head?.any isJsWs) = true → pre.length ≤ pre2.length :=
  C9_extraction_cascade.2.1 "see package x" ("package x").toList rfl rfl

/-- Claim C4 (amended, witness): the error-path equation instantiated at a
concrete failure message. -/
theorem C4_error_path_witness :
    handleStreamingGeneration (.error "boom") =
      .jsonError 500 "STREAMING_ERROR" "Streaming generation failed" "boom" :=
  (C4_error_path "boom").1

/-- Claim C8 (amended, witness): the rejection criterion instantiated at a
missing `instructions` field. -/
theorem C8_boundary_validation_witness :
    handleGeneratePolicyValidation none = .badRequest 400 "INVALID_INPUT" :=
  (C8_boundary_validation.1 none).mpr (by simp)
